import Mathlib

/-!
# Verification of the go-cmp diff reporter (`cmp/report.go`)

A shallow embedding of the `defaultReporter` state machine from
`cmp/report.go`.  The reporter observes a tree traversal through a
push/report/pop protocol and accumulates a truncated list of textual
diff blocks.

The embedding is parametric in the two external collaborators that the
file uses but does not define:
* the value formatter `value.Format` (package `cmp/internal/value`), and
* the `%#v` rendering of a `Path` (its `GoString` method).
Both are modelled as an explicit environment of total functions on an
abstract step type `S` and value type `V`, matching the boundary
specification: deterministic, never failing.

Go slices that are indexed or resliced out of range panic; the three
methods that can panic (`PopStep` on an empty stack, `Report` with an
empty value stack) are embedded as `Option`-returning functions where
`none` is the panic.
-/

set_option autoImplicit false
set_option maxRecDepth 40000

/-- `reportFlags` is `uint64` in Go; modelled as `Nat` (the values used
are tiny so no wraparound can occur). -/
abbrev reportFlags := Nat

/-- `reportEqual = (1 << 1) / 2 = 1`. -/
def reportEqual : reportFlags := 1

/-- `reportUnequal = (1 << 2) / 2 = 2`. -/
def reportUnequal : reportFlags := 2

/-- `reportIgnore = (1 << 3) / 2 = 4`. -/
def reportIgnore : reportFlags := 4

/-- The external formatting boundary: `value.Format` with its two
configurations used by `report.go` (`UseStringer: true` and
`PrintPrimitiveType: true`), plus the `%#v` formatting of a `Path`.
These functions live outside `report.go`; per the boundary contract they
are deterministic total functions from values to strings. -/
structure ValueFormatter (S V : Type) where
  formatUseStringer : V → String
  formatPrintPrimitiveType : V → String
  formatPath : List S → String

/-- `strings.Count(s, "\n")`: the number of newline characters of `s`
(each `"\n"` occurrence is one byte, so occurrences = newline chars). -/
def countNL (s : String) : Nat :=
  s.data.countP (fun c => c == '\n')

/-- The state of `defaultReporter` (report.go lines 54-64).  The
embedded `Option` field of the Go struct carries no state and is
omitted.  Go's zero value initializes all slices empty and all counters
to `0`. -/
structure defaultReporter (S V : Type) where
  curPath : List S
  curVals : List (V × V)
  diffs : List String
  ndiffs : Nat
  nbytes : Nat
  nlines : Nat

/-- The zero value of `defaultReporter`: a fresh reporter. -/
def defaultReporter.init (S V : Type) : defaultReporter S V :=
  { curPath := [], curVals := [], diffs := [], ndiffs := 0, nbytes := 0, nlines := 0 }

/-- `PushStep` (report.go lines 68-71): append the step to the path and
the value pair to the parallel stack.  `Path.push` itself lives outside
this file; modelled from the spec: "appends `step` to the path". -/
def defaultReporter.PushStep {S V : Type} (r : defaultReporter S V)
    (ps : S) (x y : V) : defaultReporter S V :=
  { r with curPath := r.curPath ++ [ps], curVals := r.curVals ++ [(x, y)] }

/-- `report` (report.go lines 83-100): tally the difference, and if the
already-stored totals are strictly below both caps, format the two
values (re-formatting with `PrintPrimitiveType` when the friendly
renderings coincide), compose the block
`fmt.Sprintf("%#v:\n\t-: %s\n\t+: %s\n", p, sx, sy)` and store it. -/
def defaultReporter.report {S V : Type} (F : ValueFormatter S V)
    (r : defaultReporter S V) (x y : V) (p : List S) : defaultReporter S V :=
  let maxBytes := 4096
  let maxLines := 256
  let r := { r with ndiffs := r.ndiffs + 1 }
  if r.nbytes < maxBytes ∧ r.nlines < maxLines then
    let sx := F.formatUseStringer x
    let sy := F.formatUseStringer y
    let sxy := if sx == sy
      then (F.formatPrintPrimitiveType x, F.formatPrintPrimitiveType y)
      else (sx, sy)
    let s := F.formatPath p ++ ":\n\t-: " ++ sxy.1 ++ "\n\t+: " ++ sxy.2 ++ "\n"
    { r with diffs := r.diffs ++ [s],
             nbytes := r.nbytes + s.utf8ByteSize,
             nlines := r.nlines + countNL s }
  else
    r

/-- `Report` (report.go lines 72-77): on `reportUnequal`, read the top
of the value stack (`r.curVals[len(r.curVals)-1]`, which panics — here
`none` — when the stack is empty) and delegate to `report`; any other
flag does nothing. -/
def defaultReporter.Report {S V : Type} (F : ValueFormatter S V)
    (r : defaultReporter S V) (f : reportFlags) : Option (defaultReporter S V) :=
  if f = reportUnequal then
    match r.curVals.getLast? with
    | none => none
    | some vs => some (r.report F vs.1 vs.2 r.curPath)
  else
    some r

/-- `PopStep` (report.go lines 78-81): remove the last step and the last
value pair.  `Path.pop` lives outside this file; modelled from the
spec: "removes the last Step", a fatal failure (`none`) at depth 0.  The
reslicing `r.curVals[:len(r.curVals)-1]` panics on an empty stack. -/
def defaultReporter.PopStep {S V : Type} (r : defaultReporter S V) :
    Option (defaultReporter S V) :=
  if r.curPath.isEmpty then none
  else if r.curVals.isEmpty then none
  else some { r with curPath := r.curPath.dropLast, curVals := r.curVals.dropLast }

/-- `String` (report.go lines 102-108): the final report — the stored
blocks joined, plus a truncation suffix when some differences were
dropped. -/
def defaultReporter.String {S V : Type} (r : defaultReporter S V) : String :=
  let s := String.join r.diffs
  if r.ndiffs = r.diffs.length then s
  else s ++ "... " ++ toString (r.ndiffs - r.diffs.length) ++ " more differences ..."

/-- A call of the `String` method observed together with the receiver
state afterwards: the method body only reads fields, so the state it
leaves behind is the state it received. -/
def finalReport {S V : Type} (r : defaultReporter S V) :
    String × defaultReporter S V :=
  (r.String, r)

/-- One call of the reporter interface, as issued by the traversal
engine. -/
inductive Op (S V : Type) where
  | push (ps : S) (x y : V)
  | report (f : reportFlags)
  | pop

/-- Whether an `Op` is a `Report` call carrying the `reportUnequal`
verdict. -/
def Op.isUnequal {S V : Type} : Op S V → Bool
  | .report f => f == reportUnequal
  | _ => false

/-- Whether an `Op` is a `PushStep` call. -/
def Op.isPush {S V : Type} : Op S V → Bool
  | .push _ _ _ => true
  | _ => false

/-- Whether an `Op` is a `PopStep` call. -/
def Op.isPop {S V : Type} : Op S V → Bool
  | .pop => true
  | _ => false

/-- Execute one interface call; `none` is a panic. -/
def runOp {S V : Type} (F : ValueFormatter S V) (r : defaultReporter S V) :
    Op S V → Option (defaultReporter S V)
  | .push ps x y => some (r.PushStep ps x y)
  | .report f => r.Report F f
  | .pop => r.PopStep

/-- Execute a sequence of interface calls from a given state; `none` as
soon as one call panics. -/
def runOps {S V : Type} (F : ValueFormatter S V) :
    List (Op S V) → defaultReporter S V → Option (defaultReporter S V)
  | [], r => some r
  | o :: os, r =>
    match runOp F r o with
    | none => none
    | some r' => runOps F os r'

/-- Number of `Report(reportUnequal)` calls in a call sequence. -/
def countUnequal {S V : Type} (ops : List (Op S V)) : Nat :=
  ops.countP Op.isUnequal

/-- Number of `PushStep` calls in a call sequence. -/
def countPush {S V : Type} (ops : List (Op S V)) : Nat :=
  ops.countP Op.isPush

/-- Number of `PopStep` calls in a call sequence. -/
def countPop {S V : Type} (ops : List (Op S V)) : Nat :=
  ops.countP Op.isPop


/-! ## Step-level characterization lemmas -/

/-- The text block composed for one unequal leaf, as built inside
`report` (report.go lines 88-95). -/
def blockStr {S V : Type} (F : ValueFormatter S V) (x y : V) (p : List S) : String :=
  let sx := F.formatUseStringer x
  let sy := F.formatUseStringer y
  let sxy := if sx == sy
    then (F.formatPrintPrimitiveType x, F.formatPrintPrimitiveType y)
    else (sx, sy)
  F.formatPath p ++ ":\n\t-: " ++ sxy.1 ++ "\n\t+: " ++ sxy.2 ++ "\n"


/-- Byte length of the most recently stored block (`0` when no block is
stored). -/
def lastBytes {S V : Type} (r : defaultReporter S V) : Nat :=
  (r.diffs.getLast?).elim 0 String.utf8ByteSize

/-- Newline count of the most recently stored block (`0` when no block
is stored). -/
def lastNL {S V : Type} (r : defaultReporter S V) : Nat :=
  (r.diffs.getLast?).elim 0 countNL

/-! ## Concrete fixtures

Small concrete formatters and call sequences used to exhibit concrete
behaviours of the reporter. -/

/-- A trivial formatter over unit steps and unit values. -/
def Etriv : ValueFormatter Unit Unit :=
  { formatUseStringer := fun _ => "v"
  , formatPrintPrimitiveType := fun _ => "t"
  , formatPath := fun _ => "P" }

/-- One leaf judged unequal: push, report unequal, pop. -/
def ops1 : List (Op Unit Unit) := [.push () () (), .report reportUnequal, .pop]

/-- The reporter state after running `ops1` under `Etriv`. -/
def rT : defaultReporter Unit Unit :=
  (runOps Etriv ops1 (defaultReporter.init Unit Unit)).getD (defaultReporter.init Unit Unit)

/-- A formatter whose friendly rendering of `true` is 300 newline
characters: a single stored block then carries more than 256 lines. -/
def fmtBig : ValueFormatter Unit Bool :=
  { formatUseStringer := fun b => if b then String.mk (List.replicate 300 '\n') else "x"
  , formatPrintPrimitiveType := fun _ => "z"
  , formatPath := fun _ => "root" }

/-- One unequal leaf whose rendering is enormous. -/
def opsBig : List (Op Unit Bool) := [.push () true false, .report reportUnequal, .pop]

/-- The reporter state after running `opsBig` under `fmtBig`. -/
def rBig : defaultReporter Unit Bool :=
  (runOps fmtBig opsBig (defaultReporter.init Unit Bool)).getD (defaultReporter.init Unit Bool)

/-- A formatter under which two distinct values print identically in
friendly mode but differ in exact-primitive-type mode. -/
def EC : ValueFormatter Unit Bool :=
  { formatUseStringer := fun _ => "boom"
  , formatPrintPrimitiveType := fun b => if b then "T1" else "T2"
  , formatPath := fun _ => "P" }

/-- A reporter whose stored byte total has reached the 4096-byte cap. -/
def rSat : defaultReporter Unit Unit :=
  { defaultReporter.init Unit Unit with nbytes := 4096 }

/-- The state after one more unequal leaf on the saturated `rSat`. -/
def rSatOut : defaultReporter Unit Unit :=
  (runOps Etriv ops1 rSat).getD rSat

/-- A reporter with one value pair on its stack. -/
def rOne : defaultReporter Unit Unit :=
  { defaultReporter.init Unit Unit with curVals := [((), ())], curPath := [()] }

/-- One leaf judged equal: push, report equal, pop. -/
def opsEq : List (Op Unit Unit) := [.push () () (), .report reportEqual, .pop]

/-- The reporter state after running `opsEq` under `Etriv`. -/
def rEq : defaultReporter Unit Unit :=
  (runOps Etriv opsEq (defaultReporter.init Unit Unit)).getD (defaultReporter.init Unit Unit)

/-- Normal form of `report`: tally, and append `blockStr` exactly when
the already-stored totals are strictly below both caps. -/
theorem report_eq {S V : Type} (F : ValueFormatter S V) (r : defaultReporter S V)
    (x y : V) (p : List S) :
    r.report F x y p =
      if r.nbytes < 4096 ∧ r.nlines < 256 then
        { r with ndiffs := r.ndiffs + 1,
                 diffs := r.diffs ++ [blockStr F x y p],
                 nbytes := r.nbytes + (blockStr F x y p).utf8ByteSize,
                 nlines := r.nlines + countNL (blockStr F x y p) }
      else
        { r with ndiffs := r.ndiffs + 1 } := by
  simp only [defaultReporter.report, blockStr]


/-- Exact effect of one successful interface call on the reporter's
counters, stacks and stored list. -/
theorem runOp_spec {S V : Type} (F : ValueFormatter S V) (r : defaultReporter S V)
    (o : Op S V) (r' : defaultReporter S V) (h : runOp F r o = some r') :
    r'.ndiffs = r.ndiffs + (if o.isUnequal then 1 else 0) ∧
    r'.curPath.length + (if o.isPop then 1 else 0)
      = r.curPath.length + (if o.isPush then 1 else 0) ∧
    r'.curVals.length + (if o.isPop then 1 else 0)
      = r.curVals.length + (if o.isPush then 1 else 0) ∧
    (o.isUnequal = false →
      r'.diffs = r.diffs ∧ r'.nbytes = r.nbytes ∧ r'.nlines = r.nlines) ∧
    ((r'.diffs = r.diffs ∧ r'.nbytes = r.nbytes ∧ r'.nlines = r.nlines) ∨
      (∃ s, r'.diffs = r.diffs ++ [s] ∧ r'.nbytes = r.nbytes + s.utf8ByteSize ∧
        r'.nlines = r.nlines + countNL s ∧ r.nbytes < 4096 ∧ r.nlines < 256)) := by
  cases o with
  | push ps x y =>
    simp only [runOp, Option.some.injEq] at h
    subst h
    simp [defaultReporter.PushStep, Op.isUnequal, Op.isPush, Op.isPop]
  | pop =>
    simp only [runOp, defaultReporter.PopStep] at h
    split at h
    · simp at h
    · split at h
      · simp at h
      · next hpath hvals =>
        simp only [Option.some.injEq] at h
        subst h
        have hp : r.curPath ≠ [] := by
          simpa [List.isEmpty_iff] using hpath
        have hv : r.curVals ≠ [] := by
          simpa [List.isEmpty_iff] using hvals
        have hp0 : 0 < r.curPath.length := List.length_pos.mpr hp
        have hv0 : 0 < r.curVals.length := List.length_pos.mpr hv
        refine ⟨rfl, ?_, ?_, fun _ => ⟨rfl, rfl, rfl⟩, Or.inl ⟨rfl, rfl, rfl⟩⟩
        · simp [Op.isPush, Op.isPop, List.length_dropLast]
          omega
        · simp [Op.isPush, Op.isPop, List.length_dropLast]
          omega
  | report f =>
    simp only [runOp, defaultReporter.Report] at h
    split at h
    · next hf =>
      subst hf
      cases hl : r.curVals.getLast? with
      | none => rw [hl] at h; simp at h
      | some vs =>
        rw [hl] at h
        simp only [Option.some.injEq] at h
        rw [report_eq] at h
        have hu : Op.isUnequal (Op.report (S := S) (V := V) reportUnequal) = true := by
          simp [Op.isUnequal]
        by_cases hcap : r.nbytes < 4096 ∧ r.nlines < 256
        · rw [if_pos hcap] at h
          subst h
          refine ⟨by simp [hu], by simp [Op.isPush, Op.isPop], by simp [Op.isPush, Op.isPop],
            by simp [hu], Or.inr ?_⟩
          exact ⟨blockStr F vs.1 vs.2 r.curPath, rfl, rfl, rfl, hcap.1, hcap.2⟩
        · rw [if_neg hcap] at h
          subst h
          exact ⟨by simp [hu], by simp [Op.isPush, Op.isPop], by simp [Op.isPush, Op.isPop],
            by simp [hu], Or.inl ⟨rfl, rfl, rfl⟩⟩
    · next hf =>
      simp only [Option.some.injEq] at h
      subst h
      have hu : Op.isUnequal (Op.report (S := S) (V := V) f) = false := by
        simp only [Op.isUnequal, beq_eq_false_iff_ne, ne_eq]
        exact hf
      exact ⟨by simp [hu], by simp [Op.isPush, Op.isPop], by simp [Op.isPush, Op.isPop],
        fun _ => ⟨rfl, rfl, rfl⟩, Or.inl ⟨rfl, rfl, rfl⟩⟩

/-! ## Run-level lemmas -/

/-- Running a concatenation of call sequences runs them one after the
other. -/
theorem runOps_append {S V : Type} (F : ValueFormatter S V) (l1 l2 : List (Op S V)) :
    ∀ r : defaultReporter S V,
      runOps F (l1 ++ l2) r = (runOps F l1 r).bind (runOps F l2) := by
  induction l1 with
  | nil => intro r; rfl
  | cons o os ih =>
    intro r
    simp only [List.cons_append, runOps]
    cases runOp F r o with
    | none => rfl
    | some r1 => exact ih r1

/-- The total-diff counter advances by exactly the number of
`Report(reportUnequal)` calls executed. -/
theorem runOps_ndiffs {S V : Type} (F : ValueFormatter S V) (ops : List (Op S V)) :
    ∀ r r' : defaultReporter S V, runOps F ops r = some r' →
      r'.ndiffs = r.ndiffs + countUnequal ops := by
  induction ops with
  | nil =>
    intro r r' h
    simp only [runOps, Option.some.injEq] at h
    subst h
    simp [countUnequal]
  | cons o os ih =>
    intro r r' h
    simp only [runOps] at h
    cases ho : runOp F r o with
    | none => rw [ho] at h; simp at h
    | some r1 =>
      rw [ho] at h
      have hstep := (runOp_spec F r o r1 ho).1
      have hrec := ih r1 r' h
      simp only [countUnequal, List.countP_cons] at hrec ⊢
      cases hb : o.isUnequal <;> simp [hb] at hstep ⊢ <;> omega

/-- Both stacks advance by exactly pushes-minus-pops across a
successful run. -/
theorem runOps_lengths {S V : Type} (F : ValueFormatter S V) (ops : List (Op S V)) :
    ∀ r r' : defaultReporter S V, runOps F ops r = some r' →
      r'.curPath.length + countPop ops = r.curPath.length + countPush ops ∧
      r'.curVals.length + countPop ops = r.curVals.length + countPush ops := by
  induction ops with
  | nil =>
    intro r r' h
    simp only [runOps, Option.some.injEq] at h
    subst h
    simp [countPop, countPush]
  | cons o os ih =>
    intro r r' h
    simp only [runOps] at h
    cases ho : runOp F r o with
    | none => rw [ho] at h; simp at h
    | some r1 =>
      rw [ho] at h
      have hstep := runOp_spec F r o r1 ho
      have h1 := hstep.2.1
      have h2 := hstep.2.2.1
      have hrec := ih r1 r' h
      simp only [countPop, countPush, List.countP_cons] at hrec ⊢
      cases hp1 : o.isPop <;> cases hp2 : o.isPush <;>
        simp [hp1, hp2] at h1 h2 ⊢ <;> omega

/-- A run containing no `Report(reportUnequal)` call leaves the stored
list and its running totals untouched. -/
theorem runOps_frame {S V : Type} (F : ValueFormatter S V) (ops : List (Op S V)) :
    ∀ r r' : defaultReporter S V, runOps F ops r = some r' →
      countUnequal ops = 0 →
      r'.diffs = r.diffs ∧ r'.nbytes = r.nbytes ∧ r'.nlines = r.nlines := by
  induction ops with
  | nil =>
    intro r r' h _
    simp only [runOps, Option.some.injEq] at h
    subst h
    exact ⟨rfl, rfl, rfl⟩
  | cons o os ih =>
    intro r r' h hz
    simp only [runOps] at h
    cases ho : runOp F r o with
    | none => rw [ho] at h; simp at h
    | some r1 =>
      rw [ho] at h
      simp only [countUnequal, List.countP_cons] at hz
      have hb : o.isUnequal = false := by
        cases hb : o.isUnequal
        · rfl
        · rw [hb] at hz; simp at hz
      have hz' : countUnequal os = 0 := by
        rw [hb] at hz; simpa [countUnequal] using hz
      have hstep := (runOp_spec F r o r1 ho).2.2.2.1 hb
      have hrec := ih r1 r' h hz'
      exact ⟨hrec.1.trans hstep.1, hrec.2.1.trans hstep.2.1, hrec.2.2.trans hstep.2.2⟩

/-- Once either running total has reached its cap, no further run ever
changes the stored list or its totals (the truncation latch). -/
theorem runOps_saturated {S V : Type} (F : ValueFormatter S V) (ops : List (Op S V)) :
    ∀ r r' : defaultReporter S V, runOps F ops r = some r' →
      4096 ≤ r.nbytes ∨ 256 ≤ r.nlines →
      r'.diffs = r.diffs ∧ r'.nbytes = r.nbytes ∧ r'.nlines = r.nlines := by
  induction ops with
  | nil =>
    intro r r' h _
    simp only [runOps, Option.some.injEq] at h
    subst h
    exact ⟨rfl, rfl, rfl⟩
  | cons o os ih =>
    intro r r' h hsat
    simp only [runOps] at h
    cases ho : runOp F r o with
    | none => rw [ho] at h; simp at h
    | some r1 =>
      rw [ho] at h
      have hstep := (runOp_spec F r o r1 ho).2.2.2.2
      have hfix : r1.diffs = r.diffs ∧ r1.nbytes = r.nbytes ∧ r1.nlines = r.nlines := by
        rcases hstep with hfix | ⟨s, _, _, _, hb, hl⟩
        · exact hfix
        · omega
      have hrec := ih r1 r' h (by omega)
      exact ⟨hrec.1.trans hfix.1, hrec.2.1.trans hfix.2.1, hrec.2.2.trans hfix.2.2⟩

/-- The soft-cap invariant: stored totals minus the final stored block
stay strictly below the caps, because a block is only appended while the
pre-append totals are below them. -/
theorem runOps_soft_cap {S V : Type} (F : ValueFormatter S V) (ops : List (Op S V)) :
    ∀ r r' : defaultReporter S V, runOps F ops r = some r' →
      r.nbytes - lastBytes r < 4096 → r.nlines - lastNL r < 256 →
      r'.nbytes - lastBytes r' < 4096 ∧ r'.nlines - lastNL r' < 256 := by
  induction ops with
  | nil =>
    intro r r' h hb hl
    simp only [runOps, Option.some.injEq] at h
    subst h
    exact ⟨hb, hl⟩
  | cons o os ih =>
    intro r r' h hb hl
    simp only [runOps] at h
    cases ho : runOp F r o with
    | none => rw [ho] at h; simp at h
    | some r1 =>
      rw [ho] at h
      have hstep := (runOp_spec F r o r1 ho).2.2.2.2
      have hinv : r1.nbytes - lastBytes r1 < 4096 ∧ r1.nlines - lastNL r1 < 256 := by
        rcases hstep with ⟨hd, hnb, hnl⟩ | ⟨s, hd, hnb, hnl, hcb, hcl⟩
        · rw [lastBytes, lastNL, hd, hnb, hnl]
          exact ⟨hb, hl⟩
        · have h1 : lastBytes r1 = s.utf8ByteSize := by
            rw [lastBytes, hd, List.getLast?_concat]
            rfl
          have h2 : lastNL r1 = countNL s := by
            rw [lastNL, hd, List.getLast?_concat]
            rfl
          omega
      exact ih r1 r' h hinv.1 hinv.2

/-! ## Claim theorems -/

/-- C2: for every call sequence, `String` returns the concatenation of
all stored blocks in the order they were stored when the stored-block
count equals the total unequal tally, and otherwise that concatenation
followed by the one-line suffix whose omitted count is exactly the
total tally minus the stored-block count. -/
theorem C2_finalReport_suffix {S V : Type} (F : ValueFormatter S V)
    (ops : List (Op S V)) (r : defaultReporter S V)
    (h : runOps F ops (defaultReporter.init S V) = some r) :
    r.ndiffs = countUnequal ops ∧
    (r.diffs.length = countUnequal ops → r.String = String.join r.diffs) ∧
    (r.diffs.length ≠ countUnequal ops →
      r.String = String.join r.diffs ++ "... "
        ++ toString (countUnequal ops - r.diffs.length) ++ " more differences ...") := by
  have hn := runOps_ndiffs F ops _ r h
  simp only [defaultReporter.init, Nat.zero_add] at hn
  refine ⟨hn, ?_, ?_⟩
  · intro he
    have heq : r.ndiffs = r.diffs.length := by omega
    simp [defaultReporter.String, heq]
  · intro hne
    rw [defaultReporter.String]
    simp only [hn]
    rw [if_neg (fun he => hne he.symm)]

/-- Witness for C2: a run with one unequal leaf, where the stored count
equals the tally and the report is the joined stored blocks. -/
theorem C2_finalReport_suffix_witness :
    rT.ndiffs = countUnequal ops1 ∧ rT.String = String.join rT.diffs := by
  have h := C2_finalReport_suffix Etriv ops1 rT rfl
  exact ⟨h.1, h.2.1 (by decide)⟩

/-- C5: a `Report` call with the `reportEqual` or `reportIgnore` flag
returns the reporter completely unchanged — path stack, value stack,
stored list and every counter. -/
theorem C5_equal_ignore_noop {S V : Type} (F : ValueFormatter S V)
    (r : defaultReporter S V) (f : reportFlags)
    (h : f = reportEqual ∨ f = reportIgnore) :
    r.Report F f = some r := by
  rcases h with h | h <;> subst h <;> rfl

/-- Witness for C5: `reportEqual` on a fresh reporter is a no-op. -/
theorem C5_equal_ignore_noop_witness :
    (defaultReporter.init Unit Unit).Report Etriv reportEqual
      = some (defaultReporter.init Unit Unit) :=
  C5_equal_ignore_noop Etriv (defaultReporter.init Unit Unit) reportEqual (Or.inl rfl)

/-- C6: a traversal in which no `Report` call carries the
`reportUnequal` verdict produces the empty final report. -/
theorem C6_no_diffs_empty {S V : Type} (F : ValueFormatter S V)
    (ops : List (Op S V)) (r : defaultReporter S V)
    (h : runOps F ops (defaultReporter.init S V) = some r)
    (hz : countUnequal ops = 0) :
    r.String = "" := by
  have hf := runOps_frame F ops _ r h hz
  have hn := runOps_ndiffs F ops _ r h
  have hd : r.diffs = [] := by simpa [defaultReporter.init] using hf.1
  have hnd : r.ndiffs = 0 := by
    simp only [defaultReporter.init, hz, Nat.zero_add] at hn
    exact hn
  simp [defaultReporter.String, hd, hnd]
  rfl

/-- Witness for C6: push / report-equal / pop yields an empty report. -/
theorem C6_no_diffs_empty_witness : rEq.String = "" :=
  C6_no_diffs_empty Etriv opsEq rEq rfl (by decide)

/-- C9: the `String` method is effect-free — the receiver state after a
call is the state before it — and hence observationally idempotent:
two consecutive calls with no intervening operation return the same
string. -/
theorem C9_final_report_idempotent {S V : Type} (r : defaultReporter S V) :
    (finalReport r).2 = r ∧
    (finalReport (finalReport r).2).1 = (finalReport r).1 :=
  ⟨rfl, rfl⟩

/-- C10: the path stack and the value-pair stack always have the same
length in every reachable state; both equal pushes minus pops. -/
theorem C10_parallel_stacks {S V : Type} (F : ValueFormatter S V)
    (ops : List (Op S V)) (r : defaultReporter S V)
    (h : runOps F ops (defaultReporter.init S V) = some r) :
    r.curPath.length = r.curVals.length ∧
    r.curVals.length = countPush ops - countPop ops := by
  have h2 := runOps_lengths F ops _ r h
  simp only [defaultReporter.init, List.length_nil] at h2
  omega

/-- Witness for C10: after one push/report/pop round trip both stacks
are empty. -/
theorem C10_parallel_stacks_witness :
    rT.curPath.length = rT.curVals.length ∧
    rT.curVals.length = countPush ops1 - countPop ops1 :=
  C10_parallel_stacks Etriv ops1 rT rfl

/-- C1 (counterexample): one unequal leaf whose rendering holds 300
newline characters is stored in full, leaving the stored diff text at
303 lines — beyond the 256-line cap — so the claimed "stored text never
exceeds the caps" invariant fails on the code: the cap check only
inspects the totals *before* appending. -/
theorem C1_counterexample :
    runOps fmtBig opsBig (defaultReporter.init Unit Bool) = some rBig ∧
    256 < rBig.nlines ∧ 256 < countNL (String.join rBig.diffs) := by
  refine ⟨rfl, by decide, by decide⟩

/-- C1 (amended): a block is appended only when the already-stored
totals are strictly below both caps, so in every reachable state the
stored totals minus the final stored block are strictly below 4096
bytes and 256 lines — the stored text can overshoot each cap by at most
one block. -/
theorem C1_soft_cap {S V : Type} (F : ValueFormatter S V)
    (ops : List (Op S V)) (r : defaultReporter S V)
    (h : runOps F ops (defaultReporter.init S V) = some r) :
    (r.nbytes - lastBytes r < 4096 ∧ r.nlines - lastNL r < 256) ∧
    (∀ (r0 : defaultReporter S V) (x y : V) (p : List S),
      (r0.report F x y p).diffs ≠ r0.diffs → r0.nbytes < 4096 ∧ r0.nlines < 256) := by
  constructor
  · exact runOps_soft_cap F ops _ r h
      (by simp [defaultReporter.init, lastBytes, lastNL])
      (by simp [defaultReporter.init, lastBytes, lastNL])
  · intro r0 x y p hne
    by_cases hcap : r0.nbytes < 4096 ∧ r0.nlines < 256
    · exact hcap
    · rw [report_eq, if_neg hcap] at hne
      simp at hne

/-- Witness for C1 (amended): after one stored block the soft-cap
invariant holds, and the append that produced it happened below the
caps. -/
theorem C1_soft_cap_witness :
    (rT.nbytes - lastBytes rT < 4096 ∧ rT.nlines - lastNL rT < 256) ∧
    ((defaultReporter.init Unit Unit).nbytes < 4096 ∧
      (defaultReporter.init Unit Unit).nlines < 256) := by
  have h := C1_soft_cap Etriv ops1 rT rfl
  exact ⟨h.1, h.2 (defaultReporter.init Unit Unit) () () [] (by decide)⟩

/-- C3: every successful `Report(reportUnequal)` call increments the
total-diff counter by exactly one, and once either stored total has
reached its cap no later call ever changes the stored list or the
stored totals, while unequal leaves continue to be tallied — the
truncation latch. -/
theorem C3_truncation_latch {S V : Type} (F : ValueFormatter S V) :
    (∀ r r' : defaultReporter S V,
      r.Report F reportUnequal = some r' → r'.ndiffs = r.ndiffs + 1) ∧
    (∀ (ops : List (Op S V)) (r r' : defaultReporter S V),
      4096 ≤ r.nbytes ∨ 256 ≤ r.nlines →
      runOps F ops r = some r' →
      r'.diffs = r.diffs ∧ r'.nbytes = r.nbytes ∧ r'.nlines = r.nlines ∧
        r'.ndiffs = r.ndiffs + countUnequal ops) := by
  constructor
  · intro r r' h
    have hstep := (runOp_spec F r (.report reportUnequal) r' (by simpa [runOp] using h)).1
    simpa [Op.isUnequal] using hstep
  · intro ops r r' hsat h
    have hfix := runOps_saturated F ops r r' h hsat
    exact ⟨hfix.1, hfix.2.1, hfix.2.2, runOps_ndiffs F ops r r' h⟩

/-- Witness for C3: on a byte-saturated reporter, a further unequal
leaf changes no stored data but is tallied. -/
theorem C3_truncation_latch_witness :
    rSatOut.diffs = rSat.diffs ∧ rSatOut.nbytes = rSat.nbytes ∧
    rSatOut.nlines = rSat.nlines ∧ rSatOut.ndiffs = rSat.ndiffs + countUnequal ops1 := by
  exact (C3_truncation_latch Etriv).2 ops1 rSat rSatOut (Or.inl (by decide)) rfl

/-- C4: when rendering one unequal leaf below the caps, if the two
friendly (`UseStringer`) renderings are textually identical the stored
block is built from the exact-primitive-type renderings of both values;
if they differ, the friendly renderings are used unchanged. -/
theorem C4_identical_rerender {S V : Type} (F : ValueFormatter S V)
    (r : defaultReporter S V) (x y : V) (p : List S)
    (hb : r.nbytes < 4096) (hl : r.nlines < 256) :
    (F.formatUseStringer x = F.formatUseStringer y →
      (r.report F x y p).diffs = r.diffs ++
        [F.formatPath p ++ ":\n\t-: " ++ F.formatPrintPrimitiveType x
          ++ "\n\t+: " ++ F.formatPrintPrimitiveType y ++ "\n"]) ∧
    (F.formatUseStringer x ≠ F.formatUseStringer y →
      (r.report F x y p).diffs = r.diffs ++
        [F.formatPath p ++ ":\n\t-: " ++ F.formatUseStringer x
          ++ "\n\t+: " ++ F.formatUseStringer y ++ "\n"]) := by
  rw [report_eq, if_pos ⟨hb, hl⟩]
  constructor
  · intro he
    simp [blockStr, he]
  · intro hne
    simp [blockStr, beq_iff_eq, hne]

/-- Witness for C4: two distinct values that both print `"boom"` in
friendly mode are re-rendered as `"T1"`/`"T2"` in the stored block. -/
theorem C4_identical_rerender_witness :
    ((defaultReporter.init Unit Bool).report EC true false []).diffs =
      [EC.formatPath [] ++ ":\n\t-: " ++ EC.formatPrintPrimitiveType true
        ++ "\n\t+: " ++ EC.formatPrintPrimitiveType false ++ "\n"] := by
  have h := (C4_identical_rerender EC (defaultReporter.init Unit Bool) true false []
    (by decide) (by decide)).1 rfl
  simpa using h

/-- C7: across every successful balanced-or-partial call sequence from
a fresh reporter, the current path length equals pushes minus pops, no
prefix of the sequence has more pops than pushes (depth never goes
negative), and `PushStep` grows the path by exactly one while a
successful `PopStep` shrinks it by exactly one. -/
theorem C7_depth_invariant {S V : Type} (F : ValueFormatter S V)
    (ops : List (Op S V)) (r : defaultReporter S V)
    (h : runOps F ops (defaultReporter.init S V) = some r) :
    r.curPath.length = countPush ops - countPop ops ∧
    (∀ pre suf : List (Op S V), ops = pre ++ suf → countPop pre ≤ countPush pre) ∧
    (∀ (ps : S) (x y : V), (r.PushStep ps x y).curPath.length = r.curPath.length + 1) ∧
    (∀ r' : defaultReporter S V, r.PopStep = some r' →
      r'.curPath.length + 1 = r.curPath.length) := by
  have hlen := (runOps_lengths F ops _ r h).1
  simp only [defaultReporter.init, List.length_nil] at hlen
  refine ⟨by omega, ?_, ?_, ?_⟩
  · intro pre suf hsplit
    subst hsplit
    rw [runOps_append] at h
    cases hpre : runOps F pre (defaultReporter.init S V) with
    | none => rw [hpre] at h; simp at h
    | some rm =>
      have hm := (runOps_lengths F pre _ rm hpre).1
      simp only [defaultReporter.init, List.length_nil] at hm
      omega
  · intro ps x y
    simp [defaultReporter.PushStep]
  · intro r' h'
    have hstep := (runOp_spec F r .pop r' (by simpa [runOp] using h')).2.1
    simpa [Op.isPop, Op.isPush] using hstep

/-- Witness for C7: after push / report / pop the path is empty, and
the singleton prefix `[push]` has no pop surplus. -/
theorem C7_depth_invariant_witness :
    rT.curPath.length = countPush ops1 - countPop ops1 ∧
    countPop ([.push () () ()] : List (Op Unit Unit)) ≤
      countPush ([.push () () ()] : List (Op Unit Unit)) := by
  have h := C7_depth_invariant Etriv ops1 rT rfl
  exact ⟨h.1, h.2.1 [.push () () ()] [.report reportUnequal, .pop] rfl⟩

/-- C8: a protocol violation is a panic, never silently absorbed —
`PopStep` at depth 0 fails, as does `Report(reportUnequal)` with an
empty value stack — while under the depth-positive precondition both
operations succeed, so the failure branch is unreachable. -/
theorem C8_protocol_violation_panics {S V : Type} (F : ValueFormatter S V) :
    (∀ r : defaultReporter S V, r.curPath.length = 0 → r.PopStep = none) ∧
    (∀ r : defaultReporter S V, r.curVals = [] →
      r.Report F reportUnequal = none) ∧
    (∀ r : defaultReporter S V, 0 < r.curPath.length →
      r.curPath.length = r.curVals.length → (r.PopStep).isSome = true) ∧
    (∀ r : defaultReporter S V, 0 < r.curVals.length →
      (r.Report F reportUnequal).isSome = true) := by
  refine ⟨?_, ?_, ?_, ?_⟩
  · intro r h
    have hp : r.curPath = [] := List.length_eq_zero.mp h
    simp [defaultReporter.PopStep, hp]
  · intro r h
    simp [defaultReporter.Report, h]
  · intro r h1 h2
    have hp : r.curPath ≠ [] := by
      intro he
      rw [he] at h1
      simp at h1
    have hv : r.curVals ≠ [] := by
      intro he
      rw [he] at h2
      simp only [List.length_nil] at h2
      omega
    simp [defaultReporter.PopStep, List.isEmpty_iff, hp, hv]
  · intro r h
    have hv : r.curVals ≠ [] := by
      intro he
      rw [he] at h
      simp at h
    obtain ⟨vs, hvs⟩ := Option.isSome_iff_exists.mp (List.getLast?_isSome.mpr hv)
    simp [defaultReporter.Report, hvs]

/-- Witness for C8: popping a fresh reporter panics; reporting unequal
with one value pair on the stack succeeds. -/
theorem C8_protocol_violation_panics_witness :
    (defaultReporter.init Unit Unit).PopStep = none ∧
    (rOne.Report Etriv reportUnequal).isSome = true := by
  have h := C8_protocol_violation_panics (S := Unit) (V := Unit) Etriv
  exact ⟨h.1 (defaultReporter.init Unit Unit) rfl, h.2.2.2 rOne (by decide)⟩
